import Mathlib

/-!
Verification of the LeNet-5 training script (`LeNet-5.py`).

The script wires together library layer primitives (`Conv2d`, `Tanh`,
`MaxPool2d`, `Linear`, `torch.flatten`) into a fixed feed-forward network,
trains it on MNIST with SGD plus a `ReduceLROnPlateau` schedule, and
evaluates with a confusion matrix.  This development embeds the script's
data model and operations shallowly:

* tensors are nested lists of rationals; the element-wise `Tanh`
  activation is transcendental, so the semantics is parameterized by an
  arbitrary element-wise activation `act : ℚ → ℚ` (no claim below depends
  on the numeric values of the activation);
* each library layer is given its standard shape-checked semantics,
  returning `none` exactly where the library raises a shape error;
* `nn.Sequential` is a list of layers interpreted left to right;
* helper functions imported by the script but not part of its source
  (`train_model`, `compute_confusion_matrix`) and the library scheduler
  are modelled from the specification, and marked as such.
-/

/-- Rank-1 tensor: a vector of scalars. -/
abbrev Tensor1 : Type := List ℚ

/-- Rank-3 tensor: channels × height × width. -/
abbrev Tensor3 : Type := List (List (List ℚ))

/-- Rank-4 tensor: a batch of rank-3 tensors. -/
abbrev Tensor4 : Type := List Tensor3

/-- Read entry `(c, i, j)` of a rank-3 tensor, defaulting to `0` out of
range (all uses below are guarded by well-formedness). -/
def idx3 (x : Tensor3) (c i j : ℕ) : ℚ :=
  ((x.getD c []).getD i []).getD j 0

/-- `WF3 x C H W`: `x` is a well-formed `C × H × W` tensor. -/
def WF3 (x : Tensor3) (C H W : ℕ) : Prop :=
  x.length = C ∧ ∀ ch ∈ x, ch.length = H ∧ ∀ r ∈ ch, r.length = W

instance (x : Tensor3) (C H W : ℕ) : Decidable (WF3 x C H W) := by
  unfold WF3; infer_instance

/-- The channel, height and width the library reads off a rank-3 input
when shape-checking (heights/widths are read from the first channel/row). -/
def dims3 (x : Tensor3) : ℕ × ℕ × ℕ :=
  (x.length, (x.headD []).length, ((x.headD []).headD []).length)

/-- Sum of `f` over `0, …, n-1`. -/
def sumRange (n : ℕ) (f : ℕ → ℚ) : ℚ :=
  ((List.range n).map f).sum

/-- 2-D cross-correlation of one output channel at one spatial position:
bias plus the kernel window dotted with the input patch. -/
def convEntry (inC k : ℕ) (w : ℕ → ℕ → ℕ → ℕ → ℚ) (b : ℕ → ℚ)
    (x : Tensor3) (o i j : ℕ) : ℚ :=
  b o + sumRange inC (fun c =>
    sumRange k (fun di =>
      sumRange k (fun dj => w o c di dj * idx3 x c (i + di) (j + dj))))

/-- Semantics of `torch.nn.Conv2d(inC, outC, kernel_size=k)` (stride 1, no
padding) on a single example: fails when the input channel count does not
match `inC` or the kernel exceeds the spatial size, otherwise produces the
`outC × (H-k+1) × (W-k+1)` output. -/
def conv2dFn (inC outC k : ℕ) (w : ℕ → ℕ → ℕ → ℕ → ℚ) (b : ℕ → ℚ)
    (x : Tensor3) : Option Tensor3 :=
  let d := dims3 x
  if d.1 = inC ∧ k ≤ d.2.1 ∧ k ≤ d.2.2 then
    some ((List.range outC).map (fun o =>
      (List.range (d.2.1 - k + 1)).map (fun i =>
        (List.range (d.2.2 - k + 1)).map (fun j =>
          convEntry inC k w b x o i j))))
  else none

/-- Maximum of a pooling window of side `k` at position `(i, j)`. -/
def poolEntry (k : ℕ) (x : Tensor3) (c i j : ℕ) : ℚ :=
  ((List.range k).flatMap (fun di =>
    (List.range k).map (fun dj => idx3 x c (k * i + di) (k * j + dj)))).foldr
    max (idx3 x c (k * i) (k * j))

/-- Semantics of `torch.nn.MaxPool2d(kernel_size=k)` (stride defaults to
`k`) on a single example: fails when the window exceeds the spatial size,
otherwise produces the `C × ((H-k)/k + 1) × ((W-k)/k + 1)` output. -/
def maxPool2dFn (k : ℕ) (x : Tensor3) : Option Tensor3 :=
  let d := dims3 x
  if k ≤ d.2.1 ∧ k ≤ d.2.2 then
    some ((List.range d.1).map (fun c =>
      (List.range ((d.2.1 - k) / k + 1)).map (fun i =>
        (List.range ((d.2.2 - k) / k + 1)).map (fun j =>
          poolEntry k x c i j))))
  else none

/-- Apply an element-wise activation to a rank-3 tensor (`torch.nn.Tanh`
applied channel-wise, row-wise, entry-wise). -/
def map3 (act : ℚ → ℚ) (x : Tensor3) : Tensor3 :=
  x.map (fun ch => ch.map (fun r => r.map act))

/-- Semantics of `torch.nn.Linear(inF, outF)` on a single example: fails
when the input feature count differs from `inF`, otherwise returns
`x Wᵀ + b`. -/
def linearFn (inF outF : ℕ) (w : ℕ → ℕ → ℚ) (b : ℕ → ℚ)
    (x : Tensor1) : Option Tensor1 :=
  if x.length = inF then
    some ((List.range outF).map (fun o =>
      b o + sumRange inF (fun i => w o i * x.getD i 0)))
  else none

/-- Semantics of `torch.flatten(x, 1)` on a single example: concatenate
all channels and rows into one feature vector. -/
def flattenFn (x : Tensor3) : Tensor1 :=
  (x.map (fun ch => ch.flatten)).flatten

/-- A value flowing through a `torch.nn.Sequential` pipeline: rank 3
between convolutional layers, rank 1 between dense layers. -/
inductive Val where
  | t3 (x : Tensor3)
  | t1 (x : Tensor1)
deriving DecidableEq

/-- One library layer of the script together with its parameters (the
parameters of `Conv2d`/`Linear` are learnable weight and bias tensors,
represented as functions). -/
inductive Layer where
  | conv2d (inC outC k : ℕ) (w : ℕ → ℕ → ℕ → ℕ → ℚ) (b : ℕ → ℚ)
  | tanh
  | maxPool2d (k : ℕ)
  | linear (inF outF : ℕ) (w : ℕ → ℕ → ℚ) (b : ℕ → ℚ)

/-- The shape-level description of a layer (its kind and size arguments,
forgetting the learnable parameters). -/
inductive LayerKind where
  | conv2d (inC outC k : ℕ)
  | tanh
  | maxPool2d (k : ℕ)
  | linear (inF outF : ℕ)
deriving DecidableEq

/-- Kind of a layer. -/
def Layer.kind : Layer → LayerKind
  | .conv2d inC outC k _ _ => .conv2d inC outC k
  | .tanh => .tanh
  | .maxPool2d k => .maxPool2d k
  | .linear inF outF _ _ => .linear inF outF

/-- Apply one layer to a value, with the library's shape checking: a
convolution or pooling layer demands a rank-3 input, a dense layer a
rank-1 input. -/
def applyLayer (act : ℚ → ℚ) (v : Val) (l : Layer) : Option Val :=
  match l, v with
  | .conv2d inC outC k w b, .t3 x => (conv2dFn inC outC k w b x).map .t3
  | .tanh, .t3 x => some (.t3 (map3 act x))
  | .tanh, .t1 x => some (.t1 (x.map act))
  | .maxPool2d k, .t3 x => (maxPool2dFn k x).map .t3
  | .linear inF outF w b, .t1 x => (linearFn inF outF w b x).map .t1
  | _, _ => none

/-- Run a `torch.nn.Sequential` container: apply its layers in order. -/
def seqApply (act : ℚ → ℚ) (layers : List Layer) (v : Val) : Option Val :=
  match layers with
  | [] => some v
  | l :: rest => (applyLayer act v l).bind (seqApply act rest)

/-- The model class (source lines 50–79).  `num_classes` and `grayscale`
are the constructor arguments; `grayscale` defaults to `False` in the
source. -/
structure LeNet5 where
  num_classes : ℕ
  grayscale : Bool := false
deriving DecidableEq

/-- The constructor's channel selection (source lines 57–61): one input
channel when `grayscale`, three otherwise. -/
def LeNet5.in_channels (m : LeNet5) : ℕ :=
  if m.grayscale then 1 else 3

/-- The learnable parameter tensors of the five parameterized layers
(two convolutions, three dense layers), as weight/bias functions. -/
structure Params where
  conv1w : ℕ → ℕ → ℕ → ℕ → ℚ
  conv1b : ℕ → ℚ
  conv2w : ℕ → ℕ → ℕ → ℕ → ℚ
  conv2b : ℕ → ℚ
  fc1w : ℕ → ℕ → ℚ
  fc1b : ℕ → ℚ
  fc2w : ℕ → ℕ → ℚ
  fc2b : ℕ → ℚ
  fc3w : ℕ → ℕ → ℚ
  fc3b : ℕ → ℚ

/-- `self.features` (source lines 64–71): the feature-detector
`nn.Sequential` container. -/
def LeNet5.features (m : LeNet5) (p : Params) : List Layer :=
  [ .conv2d m.in_channels 6 5 p.conv1w p.conv1b,
    .tanh,
    .maxPool2d 2,
    .conv2d 6 16 5 p.conv2w p.conv2b,
    .tanh,
    .maxPool2d 2 ]

/-- `self.classifier` (source lines 73–79): the dense `nn.Sequential`
container. -/
def LeNet5.classifier (m : LeNet5) (p : Params) : List Layer :=
  [ .linear (16 * 5 * 5) 120 p.fc1w p.fc1b,
    .tanh,
    .linear 120 84 p.fc2w p.fc2b,
    .tanh,
    .linear 84 m.num_classes p.fc3w p.fc3b ]

/-- Extract the rank-1 tensor `torch.flatten(x, 1)` produces per example
(identity on an already-flat value). -/
def flattenVal : Val → Tensor1
  | .t3 x => flattenFn x
  | .t1 l => l

/-- `LeNet5.forward` on a single example (source lines 82–86):
`x = self.features(x)`, `x = torch.flatten(x, 1)`,
`logits = self.classifier(x)`. -/
def LeNet5.forwardSingle (m : LeNet5) (act : ℚ → ℚ) (p : Params)
    (x : Tensor3) : Option Tensor1 :=
  (seqApply act (m.features p) (.t3 x)).bind fun v =>
    (seqApply act (m.classifier p) (.t1 (flattenVal v))).bind fun v' =>
      match v' with
      | .t1 l => some l
      | .t3 _ => none

/-- Map a fallible per-example function over a batch; the whole batch
fails when any example does (the library processes a batch as one tensor,
so a shape error on the examples aborts the whole call). -/
def batchMap (f : Tensor3 → Option Tensor1) : Tensor4 → Option (List Tensor1)
  | [] => some []
  | t :: rest => (f t).bind fun y => (batchMap f rest).map fun ys => y :: ys

/-- `LeNet5.forward` on an input batch. -/
def LeNet5.forward (m : LeNet5) (act : ℚ → ℚ) (p : Params)
    (x : Tensor4) : Option (List Tensor1) :=
  batchMap (m.forwardSingle act p) x

/-- One run of the forward pass, threading the framework's RNG state
explicitly.  The body of `forward` (source lines 82–86) makes no call
into the RNG — the network has no dropout or other stochastic layer — so
a run leaves the RNG state untouched and its result cannot depend on it. -/
def LeNet5.forwardRun (m : LeNet5) (act : ℚ → ℚ) (p : Params)
    (x : Tensor4) (rng : ℕ) : Option (List Tensor1) × ℕ :=
  (m.forward act p x, rng)

/-- Shape-level description of the layer kinds of `self.features`. -/
def LeNet5.featureKinds (m : LeNet5) : List LayerKind :=
  [ .conv2d m.in_channels 6 5, .tanh, .maxPool2d 2,
    .conv2d 6 16 5, .tanh, .maxPool2d 2 ]

/-- Shape-level description of the layer kinds of `self.classifier`. -/
def LeNet5.classifierKinds (m : LeNet5) : List LayerKind :=
  [ .linear (16 * 5 * 5) 120, .tanh,
    .linear 120 84, .tanh,
    .linear 84 m.num_classes ]

/-- The shape of a value flowing through the pipeline. -/
inductive ValShape where
  | t3 (C H W : ℕ)
  | t1 (n : ℕ)
deriving DecidableEq

/-- Shape semantics of one layer: the shape of its output on an input of
the given shape, or `none` where the library raises a shape error. -/
def shapeStep (s : ValShape) (l : LayerKind) : Option ValShape :=
  match l, s with
  | .conv2d inC outC k, .t3 C H W =>
      if C = inC ∧ k ≤ H ∧ k ≤ W then some (.t3 outC (H - k + 1) (W - k + 1))
      else none
  | .tanh, .t3 C H W => some (.t3 C H W)
  | .tanh, .t1 n => some (.t1 n)
  | .maxPool2d k, .t3 C H W =>
      if k ≤ H ∧ k ≤ W then some (.t3 C ((H - k) / k + 1) ((W - k) / k + 1))
      else none
  | .linear inF outF, .t1 n =>
      if n = inF then some (.t1 outF) else none
  | _, _ => none

/-- Shape semantics of a `Sequential` container. -/
def seqShape (ls : List LayerKind) (s : ValShape) : Option ValShape :=
  match ls with
  | [] => some s
  | l :: rest => (shapeStep s l).bind (seqShape rest)

/-- Number of features `torch.flatten(x, 1)` yields per example. -/
def flattenShape : ValShape → ℕ
  | .t3 C H W => C * (H * W)
  | .t1 n => n

/-- Shape semantics of the whole forward pass on one example of shape
`C × H × W`: the number of output features, or `none` where the forward
pass raises a shape error. -/
def LeNet5.forwardShape (m : LeNet5) (C H W : ℕ) : Option ℕ :=
  (seqShape m.featureKinds (.t3 C H W)).bind fun v =>
    (seqShape m.classifierKinds (.t1 (flattenShape v))).bind fun v' =>
      match v' with
      | .t1 n => some n
      | .t3 _ _ _ => none

/-- The script's model instance (source line 89):
`LeNet5(grayscale=True, num_classes=10)`. -/
def model : LeNet5 :=
  { num_classes := 10, grayscale := true }

/-- Source line 21. -/
def RANDOM_SEED : ℕ := 123

/-- Source line 22. -/
def BATCH_SIZE : ℕ := 256

/-- Source line 23. -/
def NUM_EPOCHS : ℕ := 15

/-- A compute device. -/
inductive Device where
  | cpu
  | cuda (idx : ℕ)
deriving DecidableEq

/-- Source line 24: `torch.device('cuda:0' if torch.cuda.is_available()
else 'cpu')`, chosen once at startup from CUDA availability. -/
def DEVICE (cudaAvailable : Bool) : Device :=
  if cudaAvailable then .cuda 0 else .cpu

/-- The script's run configuration. -/
structure Config where
  seed : ℕ
  batchSize : ℕ
  numEpochs : ℕ
  device : Device
deriving DecidableEq

/-- The configuration the entry point runs with.  The script reads no
command-line arguments — `argv` is never consulted — and every
configuration value is a source constant (lines 21–24). -/
def programConfig (argv : List String) (cudaAvailable : Bool) : Config :=
  { seed := RANDOM_SEED, batchSize := BATCH_SIZE, numEpochs := NUM_EPOCHS,
    device := DEVICE cudaAvailable }

/-- A value is well formed at a shape. -/
def WFVal : Val → ValShape → Prop
  | .t3 x, .t3 C H W => WF3 x C H W
  | .t1 l, .t1 n => l.length = n
  | _, _ => False

/-- Rank-3 shapes flowing through the script's pipeline have at least one
channel (needed because the library reads spatial sizes off the first
channel). -/
def PosShape : ValShape → Prop
  | .t3 C _ _ => 0 < C
  | .t1 _ => True

/-- Layer kinds occurring in the script: convolutions have positive
output-channel count and kernel, pooling a positive window. -/
def goodKind : LayerKind → Prop
  | .conv2d _ outC k => 0 < outC ∧ 0 < k
  | .maxPool2d k => 0 < k
  | _ => True

/-- The kind sequence of the model's layers, feature detector followed by
dense classifier (source lines 64–79). -/
def LeNet5.layerKinds (m : LeNet5) (p : Params) : List LayerKind :=
  (m.features p ++ m.classifier p).map Layer.kind

/-- Modelled from the spec's words (refinement target for the
architecture claim): "two convolution+activation+pooling stages followed
by three fully-connected+activation stages, terminating in per-class
scores (logits)", with non-linear activation between consecutive
parameterized layers and no normalization layer after the final dense
layer — the kind sequence is exactly two conv/activation/pool triples,
then dense/activation, dense/activation, dense, the final dense producing
`numClasses` outputs with nothing after it. -/
def SpecArchitecture (ks : List LayerKind) (numClasses : ℕ) : Prop :=
  ∃ i1 o1 k1 q1 i2 o2 k2 q2 f1 g1 f2 g2 f3 : ℕ,
    ks = [.conv2d i1 o1 k1, .tanh, .maxPool2d q1,
          .conv2d i2 o2 k2, .tanh, .maxPool2d q2,
          .linear f1 g1, .tanh, .linear f2 g2, .tanh, .linear f3 numClasses]

/-- All-zero parameter tensors (a concrete parameter assignment used to
exercise the theorems on concrete inputs). -/
def zeroParams : Params :=
  ⟨fun _ _ _ _ => 0, fun _ => 0, fun _ _ _ _ => 0, fun _ => 0,
   fun _ _ => 0, fun _ => 0, fun _ _ => 0, fun _ => 0,
   fun _ _ => 0, fun _ => 0⟩

/-- A concrete single-channel all-zero image of spatial size `H × W`. -/
def testImage (H W : ℕ) : Tensor3 :=
  [List.replicate H (List.replicate W (0 : ℚ))]

/-- Scheduler factor (source line 97): `factor = 0.1`. -/
def schedFactor : ℚ := 1 / 10

/-- The scheduler's patience window: the script does not pass `patience`,
so the library default of 10 epochs applies. -/
def schedPatience : ℕ := 10

/-- Modelled from the spec: the state of the library's
`ReduceLROnPlateau` scheduler (source lines 95–100; the scheduler's code
is the library's, not this repository's).  It tracks the current learning
rate, the best metric seen so far, and how many consecutive epochs went
by without improvement. -/
structure SchedState where
  lr : ℚ
  best : Option ℚ
  numBad : ℕ
deriving DecidableEq

/-- In `mode='max'` (source line 98) a metric is an improvement when it
exceeds the best value seen so far. -/
def isBetter (best : Option ℚ) (metric : ℚ) : Bool :=
  match best with
  | none => true
  | some b => decide (b < metric)

/-- Modelled from the spec: one `scheduler.step(metric)` of
`ReduceLROnPlateau` — "adjust learning rate downward by a fixed factor if
validation accuracy has plateaued for a configured patience window".  An
improving metric resets the bad-epoch counter; once the counter exceeds
the patience window the learning rate is multiplied by the factor. -/
def schedStep (factor : ℚ) (patience : ℕ) (s : SchedState)
    (metric : ℚ) : SchedState :=
  if isBetter s.best metric then
    { lr := s.lr, best := some metric, numBad := 0 }
  else if patience ≤ s.numBad then
    { lr := factor * s.lr, best := s.best, numBad := 0 }
  else
    { lr := s.lr, best := s.best, numBad := s.numBad + 1 }

/-- Run the scheduler over the per-epoch metric sequence of a training
run. -/
def schedRun (factor : ℚ) (patience : ℕ) (s : SchedState)
    (metrics : List ℚ) : SchedState :=
  metrics.foldl (schedStep factor patience) s

/-- Bump the count of one (actual, predicted) cell of a confusion
matrix. -/
def addCount (mat : Fin 10 → Fin 10 → ℕ) (t q : Fin 10) :
    Fin 10 → Fin 10 → ℕ :=
  fun a b => if a = t ∧ b = q then mat a b + 1 else mat a b

/-- Modelled from the spec: `compute_confusion_matrix` is imported from
`helper_evaluation`, which is not part of this repository's source.  Per
the spec it "runs the model in inference mode (no gradient tracking) over
all batches, accumulates predicted-vs-actual label counts into a 10×10
matrix": rows are indexed by the actual class, columns by the predicted
class; the model's inference-mode prediction is abstracted as
`predict`. -/
def compute_confusion_matrix {α : Type} (predict : α → Fin 10) :
    List (α × Fin 10) → (Fin 10 → Fin 10 → ℕ)
  | [] => fun _ _ => 0
  | e :: rest => addCount (compute_confusion_matrix predict rest) e.2 (predict e.1)

/-- Run the per-batch training transitions of one epoch: each batch maps
the optimizer/model state to a new state and a loss value, which is
appended to the per-batch loss history. -/
def runEpoch {σ β : Type} (stepFn : σ → β → σ × ℚ) (s : σ) :
    List β → σ × List ℚ
  | [] => (s, [])
  | b :: rest =>
    let r := stepFn s b
    let r2 := runEpoch stepFn r.1 rest
    (r2.1, r.2 :: r2.2)

/-- Modelled from the spec: `train_model` is imported from
`helper_train`, which is not part of this repository's source.  Per the
spec (§4.2, §6): for each epoch, every batch of the (per-epoch
restartable) training batch source is processed by a per-batch transition
that updates the state and appends one loss value; after a full epoch,
train and validation accuracy are evaluated and each appended once.  The
per-batch transition and per-epoch evaluation are the abstract `stepFn`
and `evalFn`.  Returns the final state and the three ordered histories
(per-batch loss, per-epoch train accuracy, per-epoch validation
accuracy). -/
def train_model {σ β : Type} (stepFn : σ → β → σ × ℚ) (evalFn : σ → ℚ × ℚ)
    (batches : List β) : ℕ → σ → σ × List ℚ × List ℚ × List ℚ
  | 0, s => (s, [], [], [])
  | n + 1, s =>
    let e := runEpoch stepFn s batches
    let acc := evalFn e.1
    let rest := train_model stepFn evalFn batches n e.1
    (rest.1, e.2 ++ rest.2.1, acc.1 :: rest.2.2.1, acc.2 :: rest.2.2.2)

/-- One `torch.optim.SGD(model.parameters(), lr=0.1)` step (source line
92, no momentum): every parameter tensor moves against its gradient by
the learning rate. -/
def sgdStep (lr : ℚ) (g p : Params) : Params :=
  ⟨fun o c i j => p.conv1w o c i j - lr * g.conv1w o c i j,
   fun o => p.conv1b o - lr * g.conv1b o,
   fun o c i j => p.conv2w o c i j - lr * g.conv2w o c i j,
   fun o => p.conv2b o - lr * g.conv2b o,
   fun o i => p.fc1w o i - lr * g.fc1w o i,
   fun o => p.fc1b o - lr * g.fc1b o,
   fun o i => p.fc2w o i - lr * g.fc2w o i,
   fun o => p.fc2b o - lr * g.fc2b o,
   fun o i => p.fc3w o i - lr * g.fc3w o i,
   fun o => p.fc3b o - lr * g.fc3b o⟩

/-- The successive parameter states of one training-loop batch
transition. -/
structure BatchTrace where
  logits : Option (List Tensor1)
  loss : ℚ
  paramsAfterForward : Params
  paramsAfterBackward : Params
  paramsAfterStep : Params

/-- One training-loop batch transition (spec §4.2): forward pass, loss
(cross-entropy, delegated to the library and abstracted as `lossFn`),
backward pass (gradient computation, delegated to the library's autodiff
and abstracted as `gradFn`; it writes gradient buffers, not parameters),
then the optimizer step.  The forward pass (source lines 82–86) contains
no assignment to a parameter tensor — it only reads them — so the
parameter state is carried through unchanged until the optimizer step,
the only transition producing new parameter values. -/
def trainBatch (m : LeNet5) (act : ℚ → ℚ)
    (lossFn : Option (List Tensor1) → ℚ) (gradFn : Params → Tensor4 → Params)
    (lr : ℚ) (p : Params) (x : Tensor4) : BatchTrace :=
  let logits := m.forward act p x
  let pAfterForward := p
  let loss := lossFn logits
  let g := gradFn pAfterForward x
  let pAfterBackward := pAfterForward
  let pAfterStep := sgdStep lr g pAfterBackward
  ⟨logits, loss, pAfterForward, pAfterBackward, pAfterStep⟩

theorem dims3_of_WF3 (x : Tensor3) (C H W : ℕ) (hx : WF3 x C H W)
    (hC : 0 < C) (hH : 0 < H) : dims3 x = (C, H, W) := by
  obtain ⟨hlen, hall⟩ := hx
  cases x with
  | nil => simp at hlen; omega
  | cons ch rest =>
    obtain ⟨hchlen, hrows⟩ := hall ch (List.mem_cons_self ch rest)
    cases ch with
    | nil => simp at hchlen; omega
    | cons r rs =>
      have hr := hrows r (List.mem_cons_self r rs)
      simp [dims3, ← hlen, ← hchlen, hr]

theorem dims3_of_WF3_zeroH (x : Tensor3) (C W : ℕ) (hx : WF3 x C 0 W)
    (hC : 0 < C) : dims3 x = (C, 0, 0) := by
  obtain ⟨hlen, hall⟩ := hx
  cases x with
  | nil => simp at hlen; omega
  | cons ch rest =>
    obtain ⟨hchlen, -⟩ := hall ch (List.mem_cons_self ch rest)
    have : ch = [] := List.length_eq_zero.mp hchlen
    subst this
    simp [dims3, ← hlen]

theorem WF3_grid (A B D : ℕ) (f : ℕ → ℕ → ℕ → ℚ) :
    WF3 ((List.range A).map (fun c => (List.range B).map (fun i =>
      (List.range D).map (fun j => f c i j)))) A B D := by
  refine ⟨by simp, ?_⟩
  intro ch hch
  simp only [List.mem_map, List.mem_range] at hch
  obtain ⟨c, -, rfl⟩ := hch
  refine ⟨by simp, ?_⟩
  intro r hr
  simp only [List.mem_map, List.mem_range] at hr
  obtain ⟨i, -, rfl⟩ := hr
  simp

theorem conv2dFn_none (inC outC k : ℕ) (w : ℕ → ℕ → ℕ → ℕ → ℚ) (b : ℕ → ℚ)
    (x : Tensor3) (C H W : ℕ) (hx : WF3 x C H W) (hC : 0 < C) (hk : 0 < k)
    (h : ¬(C = inC ∧ k ≤ H ∧ k ≤ W)) :
    conv2dFn inC outC k w b x = none := by
  rcases Nat.eq_zero_or_pos H with hH | hH
  · subst hH
    rw [conv2dFn, dims3_of_WF3_zeroH x C W hx hC]
    exact if_neg (by intro hcon; simp at hcon; omega)
  · rw [conv2dFn, dims3_of_WF3 x C H W hx hC hH]
    exact if_neg h

theorem conv2dFn_some (inC outC k : ℕ) (w : ℕ → ℕ → ℕ → ℕ → ℚ) (b : ℕ → ℚ)
    (x : Tensor3) (C H W : ℕ) (hx : WF3 x C H W) (hC : 0 < C) (hk : 0 < k)
    (h : C = inC ∧ k ≤ H ∧ k ≤ W) :
    ∃ y, conv2dFn inC outC k w b x = some y ∧ WF3 y outC (H - k + 1) (W - k + 1) := by
  have hH : 0 < H := lt_of_lt_of_le hk h.2.1
  rw [conv2dFn, dims3_of_WF3 x C H W hx hC hH]
  refine ⟨_, if_pos h, ?_⟩
  exact WF3_grid outC (H - k + 1) (W - k + 1) _

theorem maxPool2dFn_none (k : ℕ) (x : Tensor3) (C H W : ℕ)
    (hx : WF3 x C H W) (hC : 0 < C) (hk : 0 < k)
    (h : ¬(k ≤ H ∧ k ≤ W)) : maxPool2dFn k x = none := by
  rcases Nat.eq_zero_or_pos H with hH | hH
  · subst hH
    rw [maxPool2dFn, dims3_of_WF3_zeroH x C W hx hC]
    exact if_neg (by intro hcon; simp at hcon; omega)
  · rw [maxPool2dFn, dims3_of_WF3 x C H W hx hC hH]
    exact if_neg h

theorem maxPool2dFn_some (k : ℕ) (x : Tensor3) (C H W : ℕ)
    (hx : WF3 x C H W) (hC : 0 < C) (hk : 0 < k)
    (h : k ≤ H ∧ k ≤ W) :
    ∃ y, maxPool2dFn k x = some y ∧ WF3 y C ((H - k) / k + 1) ((W - k) / k + 1) := by
  have hH : 0 < H := lt_of_lt_of_le hk h.1
  rw [maxPool2dFn, dims3_of_WF3 x C H W hx hC hH]
  refine ⟨_, if_pos h, ?_⟩
  have := WF3_grid C ((H - k) / k + 1) ((W - k) / k + 1) (poolEntry k x)
  simpa [hx.1] using this

theorem map3_WF3 (act : ℚ → ℚ) (x : Tensor3) (C H W : ℕ)
    (hx : WF3 x C H W) : WF3 (map3 act x) C H W := by
  obtain ⟨hlen, hall⟩ := hx
  refine ⟨by simp [map3, hlen], ?_⟩
  intro ch hch
  simp only [map3, List.mem_map] at hch
  obtain ⟨ch0, hch0, rfl⟩ := hch
  obtain ⟨hch0len, hrows⟩ := hall ch0 hch0
  refine ⟨by simp [hch0len], ?_⟩
  intro r hr
  simp only [List.mem_map] at hr
  obtain ⟨r0, hr0, rfl⟩ := hr
  simp [hrows r0 hr0]

theorem linearFn_none (inF outF : ℕ) (w : ℕ → ℕ → ℚ) (b : ℕ → ℚ)
    (x : Tensor1) (h : x.length ≠ inF) :
    linearFn inF outF w b x = none := if_neg h

theorem linearFn_some (inF outF : ℕ) (w : ℕ → ℕ → ℚ) (b : ℕ → ℚ)
    (x : Tensor1) (h : x.length = inF) :
    ∃ y, linearFn inF outF w b x = some y ∧ y.length = outF := by
  rw [linearFn]
  exact ⟨_, if_pos h, by simp⟩

theorem flattenFn_length (x : Tensor3) (C H W : ℕ) (hx : WF3 x C H W) :
    (flattenFn x).length = C * (H * W) := by
  obtain ⟨hlen, hall⟩ := hx
  have hch : ∀ ch ∈ x, ch.flatten.length = H * W := by
    intro ch hch
    obtain ⟨hchlen, hrows⟩ := hall ch hch
    have : ch.map List.length = List.replicate H W := by
      rw [List.eq_replicate_iff]
      constructor
      · simp [hchlen]
      · intro b hb
        simp only [List.mem_map] at hb
        obtain ⟨r, hr, rfl⟩ := hb
        exact hrows r hr
    rw [List.length_flatten, this, List.sum_replicate, smul_eq_mul]
  have : (x.map (fun ch => ch.flatten)).map List.length = List.replicate C (H * W) := by
    rw [List.eq_replicate_iff]
    constructor
    · simp [hlen]
    · intro b hb
      simp only [List.map_map, List.mem_map, Function.comp] at hb
      obtain ⟨ch, hmem, rfl⟩ := hb
      exact hch ch hmem
  rw [flattenFn, List.length_flatten, this, List.sum_replicate, smul_eq_mul]

theorem applyLayer_corr (act : ℚ → ℚ) (l : Layer) (v : Val) (s : ValShape)
    (hg : goodKind l.kind) (hv : WFVal v s) (hp : PosShape s) :
    (shapeStep s l.kind = none → applyLayer act v l = none)
    ∧ ∀ s', shapeStep s l.kind = some s' →
        ∃ v', applyLayer act v l = some v' ∧ WFVal v' s' ∧ PosShape s' := by
  cases l with
  | conv2d inC outC k w b =>
    cases v with
    | t3 x =>
      cases s with
      | t3 C H W =>
        simp only [WFVal] at hv
        simp only [PosShape] at hp
        obtain ⟨houtC, hk⟩ := hg
        by_cases hcond : C = inC ∧ k ≤ H ∧ k ≤ W
        · obtain ⟨y, hy, hwf⟩ := conv2dFn_some inC outC k w b x C H W hv hp hk hcond
          constructor
          · intro hnone
            rw [Layer.kind, shapeStep, if_pos hcond] at hnone
            exact absurd hnone (by simp)
          · intro s' hs'
            rw [Layer.kind, shapeStep, if_pos hcond] at hs'
            refine ⟨.t3 y, by simp [applyLayer, hy], ?_, ?_⟩
            · rw [← Option.some_inj.mp hs']
              exact hwf
            · rw [← Option.some_inj.mp hs']
              exact houtC
        · constructor
          · intro _
            simp [applyLayer,
              conv2dFn_none inC outC k w b x C H W hv hp hk hcond]
          · intro s' hs'
            rw [Layer.kind, shapeStep, if_neg hcond] at hs'
            exact absurd hs' (by simp)
      | t1 n => exact absurd hv (by simp [WFVal])
    | t1 y => cases s <;> simp_all [WFVal, shapeStep, applyLayer, Layer.kind]
  | tanh =>
    cases v with
    | t3 x =>
      cases s with
      | t3 C H W =>
        exact ⟨by simp [shapeStep, Layer.kind], fun s' hs' => by
          rw [Layer.kind, shapeStep] at hs'
          exact ⟨.t3 (map3 act x), by simp [applyLayer],
            by rw [← Option.some_inj.mp hs']; exact map3_WF3 act x C H W hv,
            by rw [← Option.some_inj.mp hs']; exact hp⟩⟩
      | t1 n => exact absurd hv (by simp [WFVal])
    | t1 y =>
      cases s with
      | t3 C H W => exact absurd hv (by simp [WFVal])
      | t1 n =>
        exact ⟨by simp [shapeStep, Layer.kind], fun s' hs' => by
          rw [Layer.kind, shapeStep] at hs'
          exact ⟨.t1 (y.map act), by simp [applyLayer],
            by rw [← Option.some_inj.mp hs']; simp [WFVal]; exact hv,
            by rw [← Option.some_inj.mp hs']; trivial⟩⟩
  | maxPool2d k =>
    cases v with
    | t3 x =>
      cases s with
      | t3 C H W =>
        simp only [WFVal] at hv
        simp only [PosShape] at hp
        have hk : 0 < k := hg
        by_cases hcond : k ≤ H ∧ k ≤ W
        · obtain ⟨y, hy, hwf⟩ := maxPool2dFn_some k x C H W hv hp hk hcond
          constructor
          · intro hnone
            rw [Layer.kind, shapeStep, if_pos hcond] at hnone
            exact absurd hnone (by simp)
          · intro s' hs'
            rw [Layer.kind, shapeStep, if_pos hcond] at hs'
            refine ⟨.t3 y, by simp [applyLayer, hy], ?_, ?_⟩
            · rw [← Option.some_inj.mp hs']
              exact hwf
            · rw [← Option.some_inj.mp hs']
              exact hp
        · constructor
          · intro _
            simp [applyLayer, maxPool2dFn_none k x C H W hv hp hk hcond]
          · intro s' hs'
            rw [Layer.kind, shapeStep, if_neg hcond] at hs'
            exact absurd hs' (by simp)
      | t1 n => exact absurd hv (by simp [WFVal])
    | t1 y => cases s <;> simp_all [WFVal, shapeStep, applyLayer, Layer.kind]
  | linear inF outF w b =>
    cases v with
    | t3 x => cases s <;> simp_all [WFVal, shapeStep, applyLayer, Layer.kind]
    | t1 y =>
      cases s with
      | t3 C H W => exact absurd hv (by simp [WFVal])
      | t1 n =>
        simp only [WFVal] at hv
        by_cases hcond : n = inF
        · obtain ⟨z, hz, hlen⟩ := linearFn_some inF outF w b y (hv.trans hcond)
          constructor
          · intro hnone
            rw [Layer.kind, shapeStep, if_pos hcond] at hnone
            exact absurd hnone (by simp)
          · intro s' hs'
            rw [Layer.kind, shapeStep, if_pos hcond] at hs'
            refine ⟨.t1 z, by simp [applyLayer, hz], ?_, ?_⟩
            · rw [← Option.some_inj.mp hs']
              exact hlen
            · rw [← Option.some_inj.mp hs']
              trivial
        · constructor
          · intro _
            have : y.length ≠ inF := by rw [hv]; exact hcond
            simp [applyLayer, linearFn_none inF outF w b y this]
          · intro s' hs'
            rw [Layer.kind, shapeStep, if_neg hcond] at hs'
            exact absurd hs' (by simp)

theorem seqApply_corr (act : ℚ → ℚ) :
    ∀ (ls : List Layer) (v : Val) (s : ValShape),
    (∀ l ∈ ls, goodKind l.kind) → WFVal v s → PosShape s →
    (seqShape (ls.map Layer.kind) s = none → seqApply act ls v = none)
    ∧ ∀ s', seqShape (ls.map Layer.kind) s = some s' →
        ∃ v', seqApply act ls v = some v' ∧ WFVal v' s' ∧ PosShape s' := by
  intro ls
  induction ls with
  | nil =>
    intro v s _ hv hp
    exact ⟨by simp [seqShape], fun s' hs' => by
      simp only [List.map_nil, seqShape] at hs'
      exact ⟨v, by simp [seqApply], by rw [← Option.some_inj.mp hs']; exact hv,
        by rw [← Option.some_inj.mp hs']; exact hp⟩⟩
  | cons l rest ih =>
    intro v s hg hv hp
    have hstep := applyLayer_corr act l v s (hg l (List.mem_cons_self l rest)) hv hp
    have hgrest : ∀ l' ∈ rest, goodKind l'.kind :=
      fun l' hl' => hg l' (List.mem_cons_of_mem l hl')
    cases hsh : shapeStep s l.kind with
    | none =>
      have happ : applyLayer act v l = none := hstep.1 hsh
      constructor
      · intro _
        simp [seqApply, happ]
      · intro s' hs'
        simp [seqShape, hsh] at hs'
    | some s1 =>
      obtain ⟨v1, hv1, hwf1, hp1⟩ := hstep.2 s1 hsh
      have ihr := ih v1 s1 hgrest hwf1 hp1
      constructor
      · intro hnone
        simp only [List.map_cons, seqShape, hsh, Option.some_bind] at hnone
        simp [seqApply, hv1, ihr.1 hnone]
      · intro s' hs'
        simp only [List.map_cons, seqShape, hsh, Option.some_bind] at hs'
        obtain ⟨v', hv', hwf', hp'⟩ := ihr.2 s' hs'
        exact ⟨v', by simp [seqApply, hv1, hv'], hwf', hp'⟩

theorem flattenVal_length (v : Val) (s : ValShape) (hv : WFVal v s) :
    (flattenVal v).length = flattenShape s := by
  cases v with
  | t3 x =>
    cases s with
    | t3 C H W => exact flattenFn_length x C H W hv
    | t1 n => exact absurd hv (by simp [WFVal])
  | t1 l =>
    cases s with
    | t3 C H W => exact absurd hv (by simp [WFVal])
    | t1 n => exact hv

theorem features_goodKind (m : LeNet5) (p : Params) :
    ∀ l ∈ m.features p, goodKind l.kind := by
  intro l hl
  simp only [LeNet5.features, List.mem_cons, List.mem_singleton] at hl
  rcases hl with rfl | rfl | rfl | rfl | rfl | rfl | h
  · exact ⟨by norm_num, by norm_num⟩
  · trivial
  · norm_num [goodKind, Layer.kind]
  · exact ⟨by norm_num, by norm_num⟩
  · trivial
  · norm_num [goodKind, Layer.kind]
  · simp at h

theorem classifier_goodKind (m : LeNet5) (p : Params) :
    ∀ l ∈ m.classifier p, goodKind l.kind := by
  intro l hl
  simp only [LeNet5.classifier, List.mem_cons, List.mem_singleton] at hl
  rcases hl with rfl | rfl | rfl | rfl | rfl | h
  · trivial
  · trivial
  · trivial
  · trivial
  · trivial
  · simp at h

theorem features_kinds (m : LeNet5) (p : Params) :
    (m.features p).map Layer.kind = m.featureKinds := rfl

theorem classifier_kinds (m : LeNet5) (p : Params) :
    (m.classifier p).map Layer.kind = m.classifierKinds := rfl

/-- The forward pass on a single well-formed example follows the shape
semantics exactly: it fails where `forwardShape` fails and produces a
logits vector of the predicted length where `forwardShape` succeeds. -/
theorem forwardSingle_shape (m : LeNet5) (act : ℚ → ℚ) (p : Params)
    (x : Tensor3) (C H W : ℕ) (hx : WF3 x C H W) (hC : 0 < C) :
    (m.forwardShape C H W = none → m.forwardSingle act p x = none)
    ∧ ∀ n, m.forwardShape C H W = some n →
        ∃ y, m.forwardSingle act p x = some y ∧ y.length = n := by
  have hF := seqApply_corr act (m.features p) (.t3 x) (.t3 C H W)
    (features_goodKind m p) hx hC
  rw [features_kinds] at hF
  cases hFs : seqShape m.featureKinds (.t3 C H W) with
  | none =>
    have : seqApply act (m.features p) (.t3 x) = none := hF.1 hFs
    constructor
    · intro _
      simp [LeNet5.forwardSingle, this]
    · intro n hn
      rw [LeNet5.forwardShape, hFs] at hn
      simp at hn
  | some sF =>
    obtain ⟨vF, hvF, hwfF, hpF⟩ := hF.2 sF hFs
    have hflat : (flattenVal vF).length = flattenShape sF :=
      flattenVal_length vF sF hwfF
    have hC' := seqApply_corr act (m.classifier p)
      (.t1 (flattenVal vF)) (.t1 (flattenShape sF))
      (classifier_goodKind m p) hflat trivial
    rw [classifier_kinds] at hC'
    cases hCs : seqShape m.classifierKinds (.t1 (flattenShape sF)) with
    | none =>
      have : seqApply act (m.classifier p) (.t1 (flattenVal vF)) = none :=
        hC'.1 hCs
      constructor
      · intro _
        simp [LeNet5.forwardSingle, hvF, this]
      · intro n hn
        rw [LeNet5.forwardShape, hFs, Option.some_bind, hCs] at hn
        simp at hn
    | some sC =>
      obtain ⟨vC, hvC, hwfC, -⟩ := hC'.2 sC hCs
      cases sC with
      | t3 C' H' W' =>
        cases vC with
        | t3 y =>
          constructor
          · intro _
            simp [LeNet5.forwardSingle, hvF, hvC]
          · intro n hn
            rw [LeNet5.forwardShape, hFs, Option.some_bind, hCs] at hn
            simp at hn
        | t1 y => exact absurd hwfC (by simp [WFVal])
      | t1 nOut =>
        cases vC with
        | t3 y => exact absurd hwfC (by simp [WFVal])
        | t1 y =>
          constructor
          · intro hnone
            rw [LeNet5.forwardShape, hFs, Option.some_bind, hCs] at hnone
            simp at hnone
          · intro n hn
            rw [LeNet5.forwardShape, hFs, Option.some_bind, hCs] at hn
            simp only [Option.some_bind] at hn
            refine ⟨y, ?_, ?_⟩
            · simp [LeNet5.forwardSingle, hvF, hvC]
            · rw [← Option.some_inj.mp hn]
              exact hwfC

theorem batchMap_some (f : Tensor3 → Option Tensor1) (n : ℕ) :
    ∀ xs : Tensor4, (∀ t ∈ xs, ∃ y, f t = some y ∧ y.length = n) →
    ∃ ys, batchMap f xs = some ys ∧ ys.length = xs.length ∧
      ∀ y ∈ ys, y.length = n := by
  intro xs
  induction xs with
  | nil => exact fun _ => ⟨[], rfl, rfl, by simp⟩
  | cons t rest ih =>
    intro h
    obtain ⟨y, hy, hylen⟩ := h t (List.mem_cons_self t rest)
    obtain ⟨ys, hys, hlen, hall⟩ :=
      ih (fun t' ht' => h t' (List.mem_cons_of_mem t ht'))
    refine ⟨y :: ys, by simp [batchMap, hy, hys], by simp [hlen], ?_⟩
    intro y' hy'
    rcases List.mem_cons.mp hy' with rfl | h'
    · exact hylen
    · exact hall y' h'

theorem batchMap_cons_none (f : Tensor3 → Option Tensor1) (t : Tensor3)
    (rest : Tensor4) (h : f t = none) : batchMap f (t :: rest) = none := by
  simp [batchMap, h]

theorem in_channels_pos (m : LeNet5) : 0 < m.in_channels := by
  rw [LeNet5.in_channels]
  split <;> norm_num

theorem forwardShape_valid (m : LeNet5) :
    m.forwardShape m.in_channels 32 32 = some m.num_classes := by
  norm_num [LeNet5.forwardShape, seqShape, shapeStep, LeNet5.featureKinds,
    LeNet5.classifierKinds, flattenShape]

/-- C1: for every valid input batch (the model's expected channel count,
spatial size 32 × 32), the forward pass returns a logits batch whose
length is the batch size, each logits vector having `num_classes`
entries; the script's model is constructed with `num_classes = 10`. -/
theorem C1_forward_logits_shape :
    (∀ (m : LeNet5) (act : ℚ → ℚ) (p : Params) (x : Tensor4),
        (∀ t ∈ x, WF3 t m.in_channels 32 32) →
        ∃ ys, m.forward act p x = some ys ∧ ys.length = x.length ∧
          ∀ y ∈ ys, y.length = m.num_classes)
    ∧ model.num_classes = 10 := by
  refine ⟨?_, rfl⟩
  intro m act p x hx
  simp only [LeNet5.forward]
  apply batchMap_some (m.forwardSingle act p) m.num_classes x
  intro t ht
  exact (forwardSingle_shape m act p t m.in_channels 32 32 (hx t ht)
    (in_channels_pos m)).2 m.num_classes (forwardShape_valid m)

theorem C1_witness :
    ∃ ys, model.forward id zeroParams [testImage 32 32] = some ys ∧
      ys.length = 1 ∧ ∀ y ∈ ys, y.length = model.num_classes := by
  obtain ⟨ys, h1, h2, h3⟩ := C1_forward_logits_shape.1 model id zeroParams
    [testImage 32 32] (by decide)
  exact ⟨ys, h1, by simpa using h2, h3⟩

/-- C2: with the framework RNG state threaded explicitly, the logits of a
forward run do not depend on the RNG state at all — two runs with
identical parameters and identical input produce identical logits — and a
run is exactly the pure function of (parameters, input), leaving the RNG
state unchanged. -/
theorem C2_forward_run_deterministic :
    ∀ (m : LeNet5) (act : ℚ → ℚ) (p : Params) (x : Tensor4) (g g' : ℕ),
      (m.forwardRun act p x g).1 = (m.forwardRun act p x g').1
      ∧ m.forwardRun act p x g = (m.forward act p x, g) :=
  fun _ _ _ _ _ _ => ⟨rfl, rfl⟩

/-- C3: the model's layer-kind sequence is exactly two
convolution+activation+pooling stages followed by three dense stages with
activation between them, the final dense layer producing `num_classes`
logits with no normalization layer after it, matching the architecture
the spec states. -/
theorem C3_architecture :
    ∀ (m : LeNet5) (p : Params),
      m.layerKinds p =
        [.conv2d m.in_channels 6 5, .tanh, .maxPool2d 2,
         .conv2d 6 16 5, .tanh, .maxPool2d 2,
         .linear (16 * 5 * 5) 120, .tanh, .linear 120 84, .tanh,
         .linear 84 m.num_classes]
      ∧ SpecArchitecture (m.layerKinds p) m.num_classes := by
  intro m p
  exact ⟨rfl, m.in_channels, 6, 5, 2, 6, 16, 5, 2, 16 * 5 * 5, 120, 120, 84,
    84, rfl⟩

/-- C4: the forward pass never mutates the parameter state — in the
training-loop batch transition, the parameters are unchanged after the
forward pass and after the backward pass, and the only new parameter
values are the ones the optimizer step produces. -/
theorem C4_forward_frame :
    ∀ (m : LeNet5) (act : ℚ → ℚ) (lossFn : Option (List Tensor1) → ℚ)
      (gradFn : Params → Tensor4 → Params) (lr : ℚ) (p : Params)
      (x : Tensor4),
      (trainBatch m act lossFn gradFn lr p x).paramsAfterForward = p
      ∧ (trainBatch m act lossFn gradFn lr p x).paramsAfterBackward = p
      ∧ (trainBatch m act lossFn gradFn lr p x).paramsAfterStep
          = sgdStep lr (gradFn p x) p
      ∧ (trainBatch m act lossFn gradFn lr p x).logits = m.forward act p x :=
  fun _ _ _ _ _ _ _ => ⟨rfl, rfl, rfl, rfl⟩

theorem schedStep_lr_le (factor : ℚ) (patience : ℕ) (s : SchedState)
    (metric : ℚ) (hf0 : 0 ≤ factor) (hf1 : factor ≤ 1) (h : 0 ≤ s.lr) :
    (schedStep factor patience s metric).lr ≤ s.lr
    ∧ 0 ≤ (schedStep factor patience s metric).lr := by
  simp only [schedStep]
  split
  · exact ⟨le_rfl, h⟩
  · split
    · constructor
      · calc factor * s.lr ≤ 1 * s.lr := mul_le_mul_of_nonneg_right hf1 h
          _ = s.lr := one_mul _
      · exact mul_nonneg hf0 h
    · exact ⟨le_rfl, h⟩

theorem schedRun_lr_le (factor : ℚ) (patience : ℕ)
    (hf0 : 0 ≤ factor) (hf1 : factor ≤ 1) :
    ∀ (metrics : List ℚ) (s : SchedState), 0 ≤ s.lr →
      (schedRun factor patience s metrics).lr ≤ s.lr
      ∧ 0 ≤ (schedRun factor patience s metrics).lr := by
  intro metrics
  induction metrics with
  | nil => exact fun s h => ⟨le_rfl, h⟩
  | cons metric rest ih =>
    intro s h
    have hstep := schedStep_lr_le factor patience s metric hf0 hf1 h
    have hrest := ih (schedStep factor patience s metric) hstep.2
    simp only [schedRun, List.foldl_cons] at hrest ⊢
    exact ⟨le_trans hrest.1 hstep.1, hrest.2⟩

/-- C5: under the configured plateau schedule (factor 0.1, `mode='max'`),
the learning rate never increases: it is non-increasing across any epoch
metric sequence and across any single step, and when validation accuracy
has not improved and the patience window is exhausted, the step multiplies
the learning rate by exactly the factor 0.1. -/
theorem C5_lr_monotone :
    ∀ (s : SchedState) (metrics : List ℚ) (metric : ℚ), 0 ≤ s.lr →
      (schedRun schedFactor schedPatience s metrics).lr ≤ s.lr
      ∧ (schedStep schedFactor schedPatience s metric).lr ≤ s.lr
      ∧ (isBetter s.best metric = false → schedPatience ≤ s.numBad →
          (schedStep schedFactor schedPatience s metric).lr
            = schedFactor * s.lr) := by
  intro s metrics metric h
  have hf0 : (0 : ℚ) ≤ schedFactor := by norm_num [schedFactor]
  have hf1 : schedFactor ≤ 1 := by norm_num [schedFactor]
  refine ⟨(schedRun_lr_le schedFactor schedPatience hf0 hf1 metrics s h).1,
    (schedStep_lr_le schedFactor schedPatience s metric hf0 hf1 h).1, ?_⟩
  intro hbad hpat
  simp [schedStep, hbad, hpat]

theorem C5_witness :
    (schedRun schedFactor schedPatience ⟨1 / 10, some 1, 10⟩ [1, 1]).lr
      ≤ (1 / 10 : ℚ)
    ∧ (schedStep schedFactor schedPatience ⟨1 / 10, some 1, 10⟩ 1).lr
      = schedFactor * (1 / 10 : ℚ) := by
  have h := C5_lr_monotone ⟨1 / 10, some 1, 10⟩ [1, 1] 1 (by norm_num)
  exact ⟨h.1, h.2.2 (by decide) (by norm_num [schedPatience])⟩

/-- C6: for every dataset and every prediction function, the confusion
matrix's row `t` sums to the number of examples whose actual class is
`t`, and the total of all entries is the dataset size. -/
theorem C6_confusion_counts {α : Type} (predict : α → Fin 10)
    (data : List (α × Fin 10)) :
    (∀ t : Fin 10, (∑ q : Fin 10, compute_confusion_matrix predict data t q)
        = (data.filter (fun e => e.2 = t)).length)
    ∧ (∑ t : Fin 10, ∑ q : Fin 10,
        compute_confusion_matrix predict data t q) = data.length := by
  induction data with
  | nil => constructor <;> simp [compute_confusion_matrix]
  | cons e rest ih =>
    have key : ∀ t q, compute_confusion_matrix predict (e :: rest) t q
        = compute_confusion_matrix predict rest t q
          + (if t = e.2 ∧ q = predict e.1 then 1 else 0) := by
      intro t q
      simp only [compute_confusion_matrix, addCount]
      split <;> simp
    constructor
    · intro t
      have hsum : (∑ q : Fin 10,
          if t = e.2 ∧ q = predict e.1 then (1 : ℕ) else 0)
          = if t = e.2 then 1 else 0 := by
        by_cases ht : t = e.2
        · simp [ht]
        · simp [ht]
      calc (∑ q : Fin 10, compute_confusion_matrix predict (e :: rest) t q)
          = (∑ q : Fin 10, (compute_confusion_matrix predict rest t q
              + if t = e.2 ∧ q = predict e.1 then 1 else 0)) := by
            exact Finset.sum_congr rfl (fun q _ => key t q)
        _ = (∑ q : Fin 10, compute_confusion_matrix predict rest t q)
              + (∑ q : Fin 10, if t = e.2 ∧ q = predict e.1 then 1 else 0) :=
            Finset.sum_add_distrib
        _ = (rest.filter (fun e' => e'.2 = t)).length
              + if t = e.2 then 1 else 0 := by rw [ih.1 t, hsum]
        _ = ((e :: rest).filter (fun e' => e'.2 = t)).length := by
            by_cases he : e.2 = t
            · simp [List.filter_cons, he, Nat.add_comm]
            · have : ¬t = e.2 := fun hc => he hc.symm
              simp [List.filter_cons, he, this]
    · calc (∑ t : Fin 10, ∑ q : Fin 10,
            compute_confusion_matrix predict (e :: rest) t q)
          = (∑ t : Fin 10, ((∑ q : Fin 10,
              compute_confusion_matrix predict rest t q)
              + ∑ q : Fin 10, if t = e.2 ∧ q = predict e.1 then 1 else 0)) := by
            refine Finset.sum_congr rfl (fun t _ => ?_)
            rw [← Finset.sum_add_distrib]
            exact Finset.sum_congr rfl (fun q _ => key t q)
        _ = (∑ t : Fin 10, ∑ q : Fin 10,
              compute_confusion_matrix predict rest t q)
              + (∑ t : Fin 10, ∑ q : Fin 10,
                  if t = e.2 ∧ q = predict e.1 then 1 else 0) :=
            Finset.sum_add_distrib
        _ = rest.length + 1 := by
            have hin : ∀ t : Fin 10, (∑ q : Fin 10,
                if t = e.2 ∧ q = predict e.1 then (1 : ℕ) else 0)
                = if t = e.2 then 1 else 0 := by
              intro t
              by_cases ht : t = e.2
              · simp [ht]
              · simp [ht]
            have hone : (∑ t : Fin 10, ∑ q : Fin 10,
                if t = e.2 ∧ q = predict e.1 then (1 : ℕ) else 0) = 1 := by
              rw [Finset.sum_congr rfl (fun t _ => hin t)]
              simp
            rw [ih.2, hone]
        _ = (e :: rest).length := by rw [List.length_cons]

theorem runEpoch_length {σ β : Type} (stepFn : σ → β → σ × ℚ) :
    ∀ (batches : List β) (s : σ),
      (runEpoch stepFn s batches).2.length = batches.length := by
  intro batches
  induction batches with
  | nil => intro s; rfl
  | cons b rest ih =>
    intro s
    simp [runEpoch, ih]

/-- C7: the training loop's three returned histories have the stated
lengths: the per-batch loss history has length epochs × batches-per-epoch
and the two per-epoch accuracy histories each have length equal to the
epoch count. -/
theorem C7_history_lengths {σ β : Type} (stepFn : σ → β → σ × ℚ)
    (evalFn : σ → ℚ × ℚ) (batches : List β) :
    ∀ (n : ℕ) (s : σ),
      (train_model stepFn evalFn batches n s).2.1.length
        = n * batches.length
      ∧ (train_model stepFn evalFn batches n s).2.2.1.length = n
      ∧ (train_model stepFn evalFn batches n s).2.2.2.length = n := by
  intro n
  induction n with
  | zero => intro s; simp [train_model]
  | succ k ih =>
    intro s
    have hr := runEpoch_length stepFn batches s
    have hk := ih (runEpoch stepFn s batches).1
    refine ⟨?_, by simp [train_model, hk.2.1], by simp [train_model, hk.2.2]⟩
    simp only [train_model, List.length_append, hr, hk.1]
    ring

/-- C8: the program takes no command-line arguments — its configuration
is independent of `argv` — and every configuration value is the source
constant the spec states: seed 123, batch size 256, epoch count 15, and
a device chosen once from CUDA availability. -/
theorem C8_fixed_configuration :
    (∀ (argv argv' : List String) (cudaAvailable : Bool),
        programConfig argv cudaAvailable = programConfig argv' cudaAvailable)
    ∧ (∀ (argv : List String) (cudaAvailable : Bool),
        programConfig argv cudaAvailable =
          { seed := 123, batchSize := 256, numEpochs := 15,
            device := if cudaAvailable then .cuda 0 else .cpu })
    ∧ RANDOM_SEED = 123 ∧ BATCH_SIZE = 256 ∧ NUM_EPOCHS = 15 :=
  ⟨fun _ _ _ => rfl, fun _ _ => rfl, rfl, rfl, rfl⟩

/-- C9: the constructor selects one input channel exactly when the
`grayscale` flag is true and three otherwise, `grayscale` defaults to
false, the script's model is constructed with `grayscale=True` (hence one
input channel), and a model left at the default (`grayscale=False`)
fails with a shape error on any single-channel 32 × 32 batch. -/
theorem C9_grayscale_channels :
    (∀ n : ℕ, (LeNet5.mk n true).in_channels = 1
      ∧ (LeNet5.mk n false).in_channels = 3
      ∧ ({ num_classes := n } : LeNet5).grayscale = false)
    ∧ model.grayscale = true ∧ model.in_channels = 1
    ∧ ∀ (act : ℚ → ℚ) (p : Params) (t : Tensor3) (rest : Tensor4),
        WF3 t 1 32 32 →
        ({ num_classes := 10 } : LeNet5).forward act p (t :: rest) = none := by
  refine ⟨fun n => ⟨rfl, rfl, rfl⟩, rfl, rfl, ?_⟩
  intro act p t rest ht
  have hnone : ({ num_classes := 10 } : LeNet5).forwardSingle act p t = none := by
    apply (forwardSingle_shape _ act p t 1 32 32 ht (by norm_num)).1
    decide
  simp only [LeNet5.forward]
  exact batchMap_cons_none _ t rest hnone

theorem C9_witness :
    ({ num_classes := 10 } : LeNet5).forward id zeroParams
      [testImage 32 32] = none :=
  C9_grayscale_channels.2.2.2 id zeroParams (testImage 32 32) [] (by decide)

/-- C10 (counterexample to the claim as stated): the claim says the
forward pass raises a shape error for every spatial size other than
32 × 32, but a single-channel 33 × 33 input — a different spatial size —
is accepted and produces logits, because its feature-map flattening also
yields exactly 400 features. -/
theorem C10_counterexample :
    ¬(((33 : ℕ), (33 : ℕ)) = ((32 : ℕ), (32 : ℕ)))
    ∧ ∃ ys, model.forward id zeroParams [testImage 33 33] = some ys := by
  refine ⟨by decide, ?_⟩
  have h33 : model.forwardShape 1 33 33 = some 10 := by decide
  have hwf : WF3 (testImage 33 33) 1 33 33 := by decide
  obtain ⟨y, hy, -⟩ := (forwardSingle_shape model id zeroParams
    (testImage 33 33) 1 33 33 hwf (by norm_num)).2 10 h33
  refine ⟨[y], ?_⟩
  simp [LeNet5.forward, batchMap, hy]

/-- C10 (amended): for every single-channel 32 × 32 input the feature
extractor yields a well-formed 16 × 5 × 5 output whose flattening has
exactly 400 = 16·5·5 features, matching the classifier's declared
`in_features`, so the dense dimension check never fails and the forward
pass produces the 10 logits; the forward pass raises a shape error
exactly where the shape semantics rejects the input — e.g. on a 31 × 31
input — but not on every spatial size other than 32 × 32: a 33 × 33
input also yields exactly 400 features and is accepted. -/
theorem C10_dense_dimension :
    (∀ (act : ℚ → ℚ) (p : Params) (x : Tensor3), WF3 x 1 32 32 →
        (∃ v, seqApply act (model.features p) (.t3 x) = some v
           ∧ WFVal v (.t3 16 5 5)
           ∧ (flattenVal v).length = 16 * 5 * 5)
        ∧ ∃ y, model.forwardSingle act p x = some y ∧ y.length = 10)
    ∧ (∀ (act : ℚ → ℚ) (p : Params) (x : Tensor3) (H W : ℕ), WF3 x 1 H W →
        model.forwardShape 1 H W = none → model.forwardSingle act p x = none)
    ∧ model.forwardShape 1 31 31 = none
    ∧ model.forwardShape 1 33 33 = some 10 := by
  refine ⟨?_, ?_, by decide, by decide⟩
  · intro act p x hx
    constructor
    · have hFs : seqShape model.featureKinds (.t3 1 32 32)
          = some (.t3 16 5 5) := by decide
      have hF := (seqApply_corr act (model.features p) (.t3 x) (.t3 1 32 32)
        (features_goodKind model p) hx (by simp [PosShape]))
      rw [features_kinds] at hF
      obtain ⟨v, hv, hwf, -⟩ := hF.2 (.t3 16 5 5) hFs
      refine ⟨v, hv, hwf, ?_⟩
      have := flattenVal_length v (.t3 16 5 5) hwf
      simpa [flattenShape] using this
    · have h32 : model.forwardShape 1 32 32 = some 10 := by decide
      exact (forwardSingle_shape model act p x 1 32 32 hx (by norm_num)).2 10 h32
  · intro act p x H W hx hsh
    exact (forwardSingle_shape model act p x 1 H W hx (by norm_num)).1 hsh

theorem C10_witness :
    (∃ y, model.forwardSingle id zeroParams (testImage 32 32) = some y
       ∧ y.length = 10)
    ∧ model.forwardSingle id zeroParams (testImage 31 31) = none := by
  refine ⟨(C10_dense_dimension.1 id zeroParams (testImage 32 32)
    (by decide)).2, ?_⟩
  exact C10_dense_dimension.2.1 id zeroParams (testImage 31 31) 31 31
    (by decide) (by decide)
